import Mathlib

/-!
Verification of the Wayfinder embedding/clustering subsystem
(`src/src-tauri/src/commands.rs`) against its natural-language
specification.

The Rust code is shallowly embedded below.  Machine integers (`u64`) are
modelled as `Nat` reduced modulo `2 ^ 64` at every operation that can
overflow.  File-system and network effects are modelled by explicit
oracle functions / `FileRead` values passed to the model of each command.
Floating-point vectors are carried as `List Float`; no theorem below
depends on the value of any floating-point computation, only on the
control flow and data plumbing around them (which is what the claims
concern).  `f32` arithmetic is approximated by Lean's `Float` (`f64`);
this difference is irrelevant to every claim proved here.
-/

/-! ## Section 1: the local deterministic provider
(`generate_embeddings_local`, lines 384-520).

Rust's `DefaultHasher` is SipHash-1-3 with both keys zero; hashing a
`&str` feeds the UTF-8 bytes of the string followed by a single `0xff`
byte.  We model text as its byte list (`List Nat`, each entry < 256). -/

/-- Reduce modulo `2 ^ 64`, the `u64` wrap-around. -/
def mask64 (n : Nat) : Nat := n % 2 ^ 64

/-- Left rotation of a 64-bit word. -/
def rotl64 (x b : Nat) : Nat := mask64 (x * 2 ^ b + x / 2 ^ (64 - b))

/-- State of the SipHash permutation. -/
structure SipState where
  v0 : Nat
  v1 : Nat
  v2 : Nat
  v3 : Nat
deriving Repr, DecidableEq

/-- One SipHash round (the `SIPROUND` permutation). -/
def sipRound (s : SipState) : SipState :=
  let v0 := mask64 (s.v0 + s.v1)
  let v1 := rotl64 s.v1 13
  let v1 := mask64 (v1 ^^^ v0)
  let v0 := rotl64 v0 32
  let v2 := mask64 (s.v2 + s.v3)
  let v3 := rotl64 s.v3 16
  let v3 := mask64 (v3 ^^^ v2)
  let v0 := mask64 (v0 + v3)
  let v3 := rotl64 v3 21
  let v3 := mask64 (v3 ^^^ v0)
  let v2 := mask64 (v2 + v1)
  let v1 := rotl64 v1 17
  let v1 := mask64 (v1 ^^^ v2)
  let v2 := rotl64 v2 32
  ⟨v0, v1, v2, v3⟩

/-- Little-endian word from a byte list (at most 8 bytes). -/
def leWord (bs : List Nat) : Nat :=
  (bs.foldr (fun b acc => acc * 256 + b) 0)

/-- Absorb one 64-bit message word (1 compression round, as in SipHash-1-3). -/
def sipCompress (s : SipState) (m : Nat) : SipState :=
  let s := { s with v3 := mask64 (s.v3 ^^^ m) }
  let s := sipRound s
  { s with v0 := mask64 (s.v0 ^^^ m) }

/-- SipHash-1-3 of a byte sequence with keys `k0, k1`
    (Rust `DefaultHasher` uses `k0 = k1 = 0`). -/
def sipHash13 (k0 k1 : Nat) (msg : List Nat) : Nat :=
  let len := msg.length
  let s : SipState :=
    ⟨mask64 (k0 ^^^ 0x736f6d6570736575), mask64 (k1 ^^^ 0x646f72616e646f6d),
     mask64 (k0 ^^^ 0x6c7967656e657261), mask64 (k1 ^^^ 0x7465646279746573)⟩
  let nwords := len / 8
  let s := (List.range nwords).foldl
    (fun s i => sipCompress s (leWord ((msg.drop (8 * i)).take 8))) s
  let lastWord := mask64 ((len % 256) * 2 ^ 56 + leWord (msg.drop (8 * nwords)))
  let s := sipCompress s lastWord
  let s := { s with v2 := mask64 (s.v2 ^^^ 0xff) }
  let s := sipRound (sipRound (sipRound s))
  mask64 (s.v0 ^^^ s.v1 ^^^ s.v2 ^^^ s.v3)

/-- Rust `DefaultHasher` applied to a string, given its UTF-8 bytes:
    SipHash-1-3 with zero keys over the bytes followed by `0xff`
    (the `str` length delimiter written by `str::hash`). -/
def defaultHasherHash (bytes : List Nat) : Nat :=
  sipHash13 0 0 (bytes ++ [0xff])

/-- One step of the xorshift64* generator (`next_xorshift`, lines 397-404).
    Returns the output word and the successor state. -/
def nextXorshift (state : Nat) : Nat × Nat :=
  let x := state
  let x := mask64 (x ^^^ (x / 2 ^ 12))
  let x := mask64 (x ^^^ (x * 2 ^ 25))
  let x := mask64 (x ^^^ (x / 2 ^ 27))
  (mask64 (x * 2685821657736338717), x)

/-- Map a raw `u64` into `[-1, 1]`: `(r as f64 / u64::MAX as f64) as f32 * 2.0 - 1.0`
    (line 417).  The `f32` narrowing cast is not modelled; it is a
    deterministic function of the `f64` value, so nothing below changes. -/
def rawToUnit (r : Nat) : Float :=
  r.toFloat / (18446744073709551615 : Nat).toFloat * 2.0 - 1.0

/-- Draw `dim` mapped samples from the xorshift stream started at `state`. -/
def xorshiftStream : Nat → Nat → List Float
  | _, 0 => []
  | state, dim + 1 =>
    let p := nextXorshift state
    rawToUnit p.1 :: xorshiftStream p.2 dim

/-- Model of `compute_embedding_from_text` (lines 407-421): seed the
    xorshift state from the `DefaultHasher` hash of the text (replacing a
    zero seed by `0x9E3779B97F4A7C15`), then draw `dim` samples. -/
def computeEmbeddingFromText (textBytes : List Nat) (dim : Nat) : List Float :=
  let state := defaultHasherHash textBytes
  let state := if state = 0 then 0x9E3779B97F4A7C15 else state
  xorshiftStream state dim

/-- Hexadecimal digit. -/
def hexDigit (n : Nat) : Char :=
  if n < 10 then Char.ofNat (48 + n) else Char.ofNat (87 + n)

/-- Hexadecimal rendering, 16 digits zero-padded: `format!("{:016x}", h)`. -/
def natToHex16 (n : Nat) : String :=
  String.mk (((List.range 16).map (fun i => hexDigit (n / 16 ^ (15 - i) % 16))))

/-- Model of `content_hash` (lines 390-394): hex of the `DefaultHasher`
    finish value. -/
def contentHashLocal (bytes : List Nat) : String :=
  natToHex16 (defaultHasherHash bytes)

/-! ## Section 2: persisted data model (structs of lines 50-170). -/

/-- `FileEmbedding` (lines 50-55). -/
structure FileEmbedding where
  path : String
  embedding : List Float
  content_hash : String

/-- `EmbeddingsData` (lines 57-62). -/
structure EmbeddingsDataM where
  embeddings : List FileEmbedding
  model : String
  created_at : String

/-- `ErrorLogEntry` (lines 132-139). -/
structure ErrorLogEntryM where
  timestamp : String
  operation : String
  file_path : Option String
  error_message : String
  error_code : Option String
deriving DecidableEq

/-- `ErrorLog` (lines 141-145). -/
structure ErrorLogM where
  entries : List ErrorLogEntryM
  last_updated : String
deriving DecidableEq

/-- `Cluster` (lines 65-71). -/
structure ClusterM where
  id : Nat
  centroid : List Float
  file_paths : List String
  label : Option String

/-- `BatchProgress` (lines 148-160).  Only the fields,
    faithful to the struct; used by the progress-read model. -/
structure BatchProgressM where
  batch_id : String
  total_files : Nat
  processed_files : Nat
  current_batch : Nat
  total_batches : Nat
  batch_size : Nat
  status : String
  started_at : String
  last_updated : String
  errors : List String

/-- An entry of `index.json` as consumed by the generators.  Of the
    `FileEntry` fields (lines 86-93) only `path` flows into the logic
    modelled here (`name`, `size`, `modified`, `extension` are used for
    progress strings and display only). -/
structure FileEntryM where
  path : String

/-- `IndexData` (lines 95-100), restricted to the consumed field. -/
structure IndexDataM where
  files : List FileEntryM

/-- Result of reading-and-parsing a persisted JSON file: the file may be
    absent, present but unparsable (the raw text is kept), or parsed. -/
inductive FileRead (α : Type) where
  | missing
  | corrupt (raw : String)
  | parsed (v : α)

/-! ## Section 3: the error-log recorder (`log_error`, lines 222-251). -/

/-- Append one entry to an in-memory error log and cap it at the most
    recent 1000 entries (`entries.split_off(len - 1000)` keeps the tail),
    stamping `last_updated` with the current time (modelled as the entry's
    own timestamp, which the code produces from the same clock call). -/
def errorLogAppend (log : ErrorLogM) (e : ErrorLogEntryM) : ErrorLogM :=
  let entries := log.entries ++ [e]
  let entries := if entries.length > 1000 then
    entries.drop (entries.length - 1000) else entries
  ⟨entries, e.timestamp⟩

/-- Model of `log_error`: read `error_log.json` (absent or unparsable
    content falls back to `ErrorLog::default()`), append, cap, write. -/
def logErrorModel (fr : FileRead ErrorLogM) (e : ErrorLogEntryM) : ErrorLogM :=
  let log := match fr with
    | .parsed l => l
    | .missing => ⟨[], ""⟩
    | .corrupt _ => ⟨[], ""⟩
  errorLogAppend log e

/-! ## Section 4: the local generation entry point
(`generate_embeddings_local`). -/

/-- Counts and output of `generate_embeddings_local` (the JSON object of
    lines 513-519 plus the written embedding list). -/
structure LocalGenResult where
  generated : Nat
  cached : Nat
  skipped : Nat
  errors : Nat
  embeddings : List FileEmbedding

/-- One loop iteration of `generate_embeddings_local` (lines 465-504):
    try the cache (file readable, stored hash matches, stored dimension
    is 512), otherwise read and recompute, otherwise count as skipped.
    `readFile p = none` models both a missing file and a read error. -/
def localGenStep (readFile : String → Option (List Nat))
    (cacheLookup : String → Option FileEmbedding)
    (acc : LocalGenResult) (entry : FileEntryM) : LocalGenResult :=
  let p := entry.path
  let cachedHit : Option FileEmbedding :=
    match cacheLookup p, readFile p with
    | some fe, some content =>
      if contentHashLocal content = fe.content_hash ∧ fe.embedding.length = 512
      then some fe else none
    | _, _ => none
  match cachedHit with
  | some fe =>
    { acc with cached := acc.cached + 1, embeddings := acc.embeddings ++ [fe] }
  | none =>
    match readFile p with
    | some content =>
      { acc with
        generated := acc.generated + 1
        embeddings := acc.embeddings ++
          [⟨p, computeEmbeddingFromText content 512, contentHashLocal content⟩] }
    | none => { acc with skipped := acc.skipped + 1 }

/-- Model of `generate_embeddings_local` (lines 384-520).  A missing or
    unparsable `index.json` aborts; a missing or unparsable
    `embeddings.json` is replaced by the default empty set
    (`unwrap_or(...)`, lines 441-448).  The cache map takes the last
    embedding stored for a path (`HashMap::insert` overwrites).  The
    `error_count` binding of line 459 is immutable and stays `0`. -/
def generateEmbeddingsLocalModel (indexFileRead : FileRead IndexDataM)
    (cacheFileRead : FileRead EmbeddingsDataM)
    (readFile : String → Option (List Nat))
    (maxFiles : Option Nat) : Except String LocalGenResult :=
  match indexFileRead with
  | .missing => .error "Index file not found"
  | .corrupt raw => .error ("Failed to parse index.json: " ++ raw)
  | .parsed idx =>
    let existing : List FileEmbedding :=
      match cacheFileRead with
      | .parsed d => d.embeddings
      | .missing => []
      | .corrupt _ => []
    let cacheLookup := fun p => existing.reverse.find? (fun fe => fe.path == p)
    let error_count := 0
    let mf := maxFiles.getD idx.files.length
    .ok ((idx.files.take mf).foldl (localGenStep readFile cacheLookup)
      ⟨0, 0, 0, error_count, []⟩)

/-! ## Section 5: progress reader and cluster-count computation. -/

/-- Result of `get_embedding_progress` (lines 901-920). -/
inductive ProgressView where
  | notStarted
  | progress (p : BatchProgressM)

/-- Model of `get_embedding_progress`: a missing progress file yields the
    `not_started` answer, an unparsable one is a fatal parse error
    (lines 916-917 `map_err(...)?`). -/
def getEmbeddingProgressModel (fr : FileRead BatchProgressM) :
    Except String ProgressView :=
  match fr with
  | .missing => .ok .notStarted
  | .corrupt raw => .error ("Failed to parse progress file: " ++ raw)
  | .parsed p => .ok (.progress p)

/-- The cluster count used by `create_clusters` (lines 989-992):
    `num_clusters.unwrap_or_else(|| sqrt(n).max(2).min(20))`.
    `(n as f64).sqrt() as usize` truncates the correctly-rounded square
    root; this equals `Nat.sqrt n` for every `n < 2 ^ 52` (where `f64`
    represents `n` exactly and the rounding of an irrational root cannot
    cross an integer), and for larger `n` both sides are clamped to 20. -/
def clusterCountOf (numClusters : Option Nat) (n : Nat) : Nat :=
  numClusters.getD (min (max (Nat.sqrt n) 2) 20)

/-- Spec formula with `floor`: `clamp(floor(sqrt(n)), 2, 20)`. -/
def specClusterKFloor (n : Nat) : Nat := max 2 (min (Nat.sqrt n) 20)

/-- Nearest integer to `sqrt n`: equals `s = Nat.sqrt n` when
    `n ≤ s * s + s` (i.e. `sqrt n < s + 1/2`) and `s + 1` otherwise. -/
def roundSqrt (n : Nat) : Nat :=
  let s := Nat.sqrt n
  if n ≤ s * s + s then s else s + 1

/-- Spec formula as literally written: `clamp(round(sqrt(n)), 2, 20)`. -/
def specClusterKRound (n : Nat) : Nat := max 2 (min (roundSqrt n) 20)

/-! ## Section 6: the clustering engine (`kmeans_cluster`, lines 1021-1117,
and `cosine_distance`, lines 1236-1249).

The `rand::thread_rng()` draws of the initial centroid indices are an
input of the model (`init`): the code samples `min k n` distinct indices
below `n`, which become hypotheses of the theorems.  The label synthesis
(`generate_cluster_label`) iterates `HashMap`s in unspecified order, so
the labelling function is likewise a parameter; no claim concerns label
text. -/

/-- `f32::MAX`, the initial minimum distance of the nearest-centroid scan. -/
def f32Max : Float := 3.40282347e38

/-- `cosine_distance` (lines 1236-1249): `1 - dot / (|a| * |b| + 1e-10)`,
    accumulating over the common prefix of the two vectors. -/
def cosineDistance (a b : List Float) : Float :=
  let l := min a.length b.length
  let t := (List.range l).foldl
    (fun (acc : Float × Float × Float) i =>
      (acc.1 + a.getD i 0 * b.getD i 0,
       acc.2.1 + a.getD i 0 * a.getD i 0,
       acc.2.2 + b.getD i 0 * b.getD i 0))
    (0.0, 0.0, 0.0)
  1.0 - t.1 / (Float.sqrt t.2.1 * Float.sqrt t.2.2 + 1e-10)

/-- Index of the centroid minimising the cosine distance (lines 1048-1058):
    scan with `min_dist = f32::MAX`, `min_idx = 0`, strict improvement. -/
def nearestIdx (v : List Float) (cents : List (List Float)) : Nat :=
  ((cents.enum).foldl
    (fun (acc : Float × Nat) jc =>
      let d := cosineDistance v jc.2
      if d < acc.1 then (d, jc.1) else acc)
    (f32Max, 0)).2

/-- Assignment pass: every embedding goes to its nearest centroid. -/
def assignAll (embs : List FileEmbedding) (cents : List (List Float)) :
    List Nat :=
  embs.map (fun e => nearestIdx e.embedding cents)

/-- Centroid update pass (lines 1072-1091): each centroid with at least one
    member becomes the coordinate-wise mean of its members; a memberless
    centroid keeps its value. -/
def updateCentroids (embs : List FileEmbedding) (assigns : List Nat)
    (cents : List (List Float)) (dim : Nat) : List (List Float) :=
  (cents.enum).map (fun jc =>
    let members := ((embs.zip assigns).filter (fun x => x.2 == jc.1)).map
      (fun x => x.1.embedding)
    if members.length > 0 then
      (List.range dim).map (fun d =>
        (members.foldl (fun s m => s + m.getD d 0) 0.0) / members.length.toFloat)
    else jc.2)

/-- The iteration loop (lines 1045-1092): up to 50 assignment passes, early
    exit when no assignment changed (in which case the centroids are left
    as they were), otherwise update the centroids and continue. -/
def kmeansLoop (embs : List FileEmbedding) (dim : Nat) :
    Nat → List (List Float) → List Nat → List (List Float) × List Nat
  | 0, cents, assigns => (cents, assigns)
  | fuel + 1, cents, assigns =>
    let na := assignAll embs cents
    if na = assigns then (cents, assigns)
    else kmeansLoop embs dim fuel (updateCentroids embs na cents dim) na

/-- Emission of the clusters (lines 1095-1116): one cluster per centroid
    index with a non-empty member set, id = centroid index. -/
def buildClusters (lbl : List String → String) (embs : List FileEmbedding)
    (cents : List (List Float)) (assigns : List Nat) : List ClusterM :=
  (cents.enum).filterMap (fun jc =>
    let fps := ((embs.zip assigns).filter (fun x => x.2 == jc.1)).map
      (fun x => x.1.path)
    if fps.isEmpty then none
    else some ⟨jc.1, jc.2, fps, some (lbl fps)⟩)

/-- `kmeans_cluster` (lines 1021-1117), with the random initial indices
    `init` and the label synthesiser `lbl` as oracle inputs. -/
def kmeansCluster (lbl : List String → String) (embs : List FileEmbedding)
    (k : Nat) (init : List Nat) : List ClusterM :=
  if embs.isEmpty || k == 0 then []
  else
    let dim := (embs.headD ⟨"", [], ""⟩).embedding.length
    let centroids0 := init.map (fun i => (embs.getD i ⟨"", [], ""⟩).embedding)
    let p := kmeansLoop embs dim 50 centroids0 (List.replicate embs.length 0)
    buildClusters lbl embs p.1 p.2

/-- Result of `create_clusters` (the JSON of lines 1013-1017, plus the
    cluster count it chose). -/
structure ClustersResult where
  k : Nat
  clusters : List ClusterM
  totalFiles : Nat

/-- Model of `create_clusters` (lines 965-1018): a missing `embeddings.json`
    or an empty embedding list aborts; an unparsable one is a fatal parse
    error (lines 981-982 `map_err(...)?`); otherwise cluster with
    `clusterCountOf`. -/
def createClustersModel (embFileRead : FileRead EmbeddingsDataM)
    (numClusters : Option Nat) (init : List Nat)
    (lbl : List String → String) : Except String ClustersResult :=
  match embFileRead with
  | .missing => .error "Embeddings not found. Please generate embeddings first."
  | .corrupt raw => .error ("Failed to parse embeddings: " ++ raw)
  | .parsed d =>
    if d.embeddings.isEmpty then
      .error "No embeddings found. Please generate embeddings first."
    else
      let k := clusterCountOf numClusters d.embeddings.length
      .ok ⟨k, kmeansCluster lbl d.embeddings k init, d.embeddings.length⟩

/-! ## Section 7: the remote (Azure) batched provider
(`generate_embeddings_azure`, lines 522-782).

The whole-run model used by the resumability claim abstracts one file's
processing (read + trim + truncate + request/retry loop, lines 633-745)
into an outcome oracle: `success` carries the embedding vector and
content hash recorded on success, `skipped` covers an unreadable or blank
file, `failed` an exhausted/permanent API error (neither of which adds a
record).  The batch bookkeeping — windows, the `processed_paths` filter,
checkpoint writes — is modelled verbatim. -/

/-- Outcome of processing a single not-yet-processed file. -/
inductive AzureOutcome where
  | success (embedding : List Float) (hash : String)
  | skipped
  | failed

/-- `total_batches` (line 563): ceiling division. -/
def numBatches (total batchSize : Nat) : Nat := (total + batchSize - 1) / batchSize

/-- The slice `files_to_process[batch_start..batch_end]` of batch `i`
    (lines 625-626). -/
def windowOf (files : List String) (b i : Nat) : List String :=
  (files.drop (i * b)).take b

/-- The sequence of (batch index, batch slice) pairs the loop of line 625
    visits: `batch_idx` counts every window, written or skipped. -/
def indexedWindows (files : List String) (b : Nat) : List (Nat × List String) :=
  (List.range (numBatches files.length b)).map (fun i => (i, windowOf files b i))

/-- Write `embedding_batches/embeddings_part_{i:03}.json` (line 753-754):
    the directory is an association list from batch index to record list;
    an existing file of the same index is overwritten. -/
def writeCheckpoint (cps : List (Nat × List FileEmbedding)) (i : Nat)
    (recs : List FileEmbedding) : List (Nat × List FileEmbedding) :=
  if cps.any (fun e => e.1 == i) then
    cps.map (fun e => if e.1 == i then (i, recs) else e)
  else cps ++ [(i, recs)]

/-- The batch loop (lines 625-763): for each window, keep the files whose
    path is not in `processed_paths`; an all-processed window is skipped
    (`batch_idx` still advances); otherwise the remaining files are
    attempted and the successful records written as that window's
    checkpoint.  Returns the final checkpoint directory and the list of
    paths attempted (read and, unless skipped, sent). -/
def runBatches (oc : String → AzureOutcome) (processed : List String) :
    List (Nat × List String) → List (Nat × List FileEmbedding) →
    List (Nat × List FileEmbedding) × List String
  | [], cps => (cps, [])
  | (i, w) :: rest, cps =>
    let bf := w.filter (fun p => decide (p ∉ processed))
    if bf.isEmpty then runBatches oc processed rest cps
    else
      let recs := bf.filterMap (fun p =>
        match oc p with
        | .success emb h => some ⟨p, emb, h⟩
        | .skipped => none
        | .failed => none)
      let r := runBatches oc processed rest (writeCheckpoint cps i recs)
      (r.1, bf ++ r.2)

/-- The resume set (lines 566-598): every path found in an existing batch
    checkpoint file plus every path of a prior consolidated
    `embeddings.json`. -/
def processedPathsOf (cps : List (Nat × List FileEmbedding))
    (consolidated : List FileEmbedding) : List String :=
  cps.flatMap (fun e => e.2.map (fun r => r.path)) ++
    consolidated.map (fun r => r.path)

/-- A full run of the Azure batch loop against a pre-existing checkpoint
    directory `cps` and prior consolidated set. -/
def azureRun (oc : String → AzureOutcome) (files : List String) (b : Nat)
    (cps : List (Nat × List FileEmbedding)) (consolidated : List FileEmbedding) :
    List (Nat × List FileEmbedding) × List String :=
  runBatches oc (processedPathsOf cps consolidated) (indexedWindows files b) cps

/-- A fresh run terminated after completing its first `n` batches: no
    pre-existing checkpoints or consolidated set, and only the first `n`
    windows were processed before the process was killed (the consolidated
    write of line 771 never happened). -/
def azureRunFirstN (oc : String → AzureOutcome) (files : List String)
    (b n : Nat) : List (Nat × List FileEmbedding) × List String :=
  runBatches oc [] ((indexedWindows files b).take n) []

/-! ## Section 8: the per-file read phase of the Azure loop
(lines 633-652), for the skip/log and truncation claims.
Content is modelled as a list of Unicode scalar values so that the
byte-oriented truncation of line 648 can be expressed exactly. -/

/-- Result of `fs::read_to_string` for one file. -/
inductive FileReadText where
  | unreadable (msg : String)
  | content (chars : List Char)

/-- Rust `str::trim`: strip leading and trailing whitespace.  (Lean's
    `Char.isWhitespace` covers the ASCII whitespace relevant here; Rust
    also strips further Unicode `White_Space` characters.) -/
def rustTrim (cs : List Char) : List Char :=
  ((cs.dropWhile Char.isWhitespace).reverse.dropWhile Char.isWhitespace).reverse

/-- What the read phase does to one file before any request is issued. -/
structure AzureFileStepResult where
  skippedDelta : Nat
  logged : List ErrorLogEntryM
  sent : Bool
deriving DecidableEq

/-- Lines 633-645: an unreadable file increments `skipped_count`, appends
    a `read_file` entry to the error log and continues; content that is
    blank after trimming increments `skipped_count` and continues (no log
    entry); otherwise the loop proceeds to send a request. -/
def azureFileReadPhase (now path : String) (r : FileReadText) :
    AzureFileStepResult :=
  match r with
  | .unreadable msg => ⟨1, [⟨now, "read_file", some path, msg, none⟩], false⟩
  | .content cs =>
    if (rustTrim cs).isEmpty then ⟨1, [], false⟩ else ⟨0, [], true⟩

/-- Byte length of content, `content.len()` in Rust (UTF-8 bytes). -/
def utf8Len (cs : List Char) : Nat := (cs.map Char.utf8Size).sum

/-- Rust byte slicing `&content[..n]`: take the longest char prefix of
    exactly `n` bytes; `none` when `n` is not a char boundary (in Rust the
    slice panics). -/
def utf8TakeBytes : List Char → Nat → Option (List Char)
  | _, 0 => some []
  | [], _ + 1 => none
  | c :: cs, n + 1 =>
    if c.utf8Size ≤ n + 1 then
      (utf8TakeBytes cs (n + 1 - c.utf8Size)).map (fun l => c :: l)
    else none

/-- The truncation step (lines 647-651): content longer than 32000 bytes is
    replaced by `content[..32000].to_string()`.  Returns `none` exactly
    when the Rust code panics (byte 32000 not a char boundary). -/
def truncateContent (cs : List Char) : Option (List Char) :=
  if utf8Len cs > 32000 then utf8TakeBytes cs 32000 else some cs

/-- The content that makes the truncation step panic: 31999 one-byte
    characters followed by a two-byte character, so byte index 32000 falls
    inside the final character's encoding. -/
def c8FailingContent : List Char := List.replicate 31999 'a' ++ ['é', 'a']

/-- The conclusion of the resumability claim: after a fresh run is
    terminated upon completing its first `n` batches and the job is
    restarted with identical parameters, (1) the restarted run attempts no
    path already present in a checkpoint or the consolidated set, (2, 3)
    the checkpoint directory finally holds exactly one file per batch
    index `0, ..., M - 1` where `M` is the batch count, and (4) no path
    appears in two different checkpoint files. -/
def AzureResumeOk (oc1 oc2 : String → AzureOutcome) (files : List String)
    (b n : Nat) : Prop :=
  (∀ p ∈ (azureRun oc2 files b (azureRunFirstN oc1 files b n).1 []).2,
    p ∉ processedPathsOf (azureRunFirstN oc1 files b n).1 []) ∧
  (((azureRun oc2 files b (azureRunFirstN oc1 files b n).1 []).1.map
    (fun e => e.1)).Nodup) ∧
  (∀ i : Nat,
    i ∈ (azureRun oc2 files b (azureRunFirstN oc1 files b n).1 []).1.map
      (fun e => e.1) ↔ i < numBatches files.length b) ∧
  (∀ e1 ∈ (azureRun oc2 files b (azureRunFirstN oc1 files b n).1 []).1,
    ∀ e2 ∈ (azureRun oc2 files b (azureRunFirstN oc1 files b n).1 []).1,
    e1.1 ≠ e2.1 → ∀ p, p ∈ e1.2.map (fun r => r.path) →
      p ∉ e2.2.map (fun r => r.path))


/-! ## Theorems: claims C2, C3, C4, C5, C6, C7, C8, C10. -/

/-- C3: for every text `T` (as UTF-8 bytes) and every dimension `D`, two
    invocations of the local provider's embedding generation on the same
    `T` and `D` yield identical vectors.  The embedded
    `compute_embedding_from_text` is a pure function of its inputs: the
    hasher (`DefaultHasher::new()`) starts from fixed keys and the
    xorshift stream is fully determined by its seed, so determinism is
    definitional. -/
theorem c3_local_provider_deterministic (t : List Nat) (d : Nat) :
    computeEmbeddingFromText t d = computeEmbeddingFromText t d := rfl

/-- Unfolding of the success path of `create_clusters`: with a parsed,
    non-empty embedding set the command succeeds, using the cluster count
    of `clusterCountOf`. -/
theorem createClustersModel_ok (d : EmbeddingsDataM) (nc : Option Nat)
    (init : List Nat) (lbl : List String → String)
    (h : d.embeddings.isEmpty = false) :
    createClustersModel (.parsed d) nc init lbl =
      .ok ⟨clusterCountOf nc d.embeddings.length,
        kmeansCluster lbl d.embeddings (clusterCountOf nc d.embeddings.length)
          init, d.embeddings.length⟩ := by
  simp only [createClustersModel, h, Bool.false_eq_true, if_false]

/-- C2 (counterexample): for a set of one embedding and no explicit
    cluster count, `create_clusters` computes `k = 2`, violating
    `k ≤ min(20, n) = 1`. -/
theorem c2_counterexample :
    ∃ r, createClustersModel (.parsed ⟨[⟨"p", [], "h"⟩], "m", "t"⟩) none [0]
      (fun _ => "x") = .ok r ∧ r.k = 2 ∧ ¬ r.k ≤ min 20 1 := by
  refine ⟨_, createClustersModel_ok _ none [0] _ rfl, ?_, ?_⟩ <;> decide

/-- C2 (amended): for every embedding set with at least two records and no
    explicit cluster count, `create_clusters` succeeds and its computed
    `k` satisfies `2 ≤ k ≤ min(20, n)`. -/
theorem c2_cluster_count_bounds (d : EmbeddingsDataM) (init : List Nat)
    (lbl : List String → String) (h : 2 ≤ d.embeddings.length) :
    ∃ r, createClustersModel (.parsed d) none init lbl = .ok r ∧
      2 ≤ r.k ∧ r.k ≤ min 20 d.embeddings.length := by
  have hne : d.embeddings.isEmpty = false := by
    cases hd : d.embeddings with
    | nil => rw [hd] at h; simp at h
    | cons a l => simp
  have hs := Nat.sqrt_le_self d.embeddings.length
  refine ⟨_, createClustersModel_ok d none init lbl hne, ?_, ?_⟩
  · show 2 ≤ clusterCountOf none d.embeddings.length
    simp only [clusterCountOf, Option.getD_none]
    omega
  · show clusterCountOf none d.embeddings.length ≤ min 20 d.embeddings.length
    simp only [clusterCountOf, Option.getD_none]
    omega

/-- Witness for `c2_cluster_count_bounds` at a concrete two-record set. -/
theorem c2_cluster_count_bounds_witness :
    2 ≤ (⟨[⟨"p", [], "h"⟩, ⟨"q", [], "h"⟩], "m", "t"⟩ :
        EmbeddingsDataM).embeddings.length ∧
    (∃ r, createClustersModel
        (.parsed ⟨[⟨"p", [], "h"⟩, ⟨"q", [], "h"⟩], "m", "t"⟩) none [0, 1]
        (fun _ => "x") = .ok r ∧
      2 ≤ r.k ∧
      r.k ≤ min 20 (⟨[⟨"p", [], "h"⟩, ⟨"q", [], "h"⟩], "m", "t"⟩ :
        EmbeddingsDataM).embeddings.length) :=
  ⟨by decide, c2_cluster_count_bounds _ [0, 1] (fun _ => "x") (by decide)⟩

/-- C6 (counterexample): at `n = 8` the code computes
    `k = floor(sqrt 8).max(2).min(20) = 2`, while the spec formula
    `clamp(round(sqrt 8), 2, 20)` gives 3. -/
theorem c6_counterexample :
    ∃ r, createClustersModel
        (.parsed ⟨List.replicate 8 ⟨"p", [], "h"⟩, "m", "t"⟩) none [0]
        (fun _ => "x") = .ok r ∧
      r.k = 2 ∧ specClusterKRound 8 = 3 ∧ r.k ≠ specClusterKRound 8 := by
  have h8 : Nat.sqrt 8 = 2 := (Nat.eq_sqrt.mpr (by norm_num)).symm
  have hk : clusterCountOf none (List.replicate 8
      (⟨"p", [], "h"⟩ : FileEmbedding)).length = 2 := by
    simp only [clusterCountOf, Option.getD_none, List.length_replicate, h8]
    omega
  have hr : specClusterKRound 8 = 3 := by
    simp only [specClusterKRound, roundSqrt, h8]
    norm_num
  refine ⟨_, createClustersModel_ok _ none [0] _ rfl, hk, hr, ?_⟩
  show clusterCountOf none (List.replicate 8
    (⟨"p", [], "h"⟩ : FileEmbedding)).length ≠ specClusterKRound 8
  omega

/-- C6 (amended): for every non-empty embedding set and no explicit
    cluster count, the computed `k` equals `clamp(floor(sqrt n), 2, 20)`
    (the square root is truncated, not rounded to nearest). -/
theorem c6_cluster_count_formula (d : EmbeddingsDataM) (init : List Nat)
    (lbl : List String → String) (h : d.embeddings.isEmpty = false) :
    ∃ r, createClustersModel (.parsed d) none init lbl = .ok r ∧
      r.k = specClusterKFloor d.embeddings.length := by
  refine ⟨_, createClustersModel_ok d none init lbl h, ?_⟩
  show clusterCountOf none d.embeddings.length = specClusterKFloor
    d.embeddings.length
  simp only [clusterCountOf, Option.getD_none, specClusterKFloor]
  omega

/-- Witness for `c6_cluster_count_formula` at a concrete one-record set. -/
theorem c6_cluster_count_formula_witness :
    (⟨[⟨"p", [], "h"⟩], "m", "t"⟩ : EmbeddingsDataM).embeddings.isEmpty =
      false ∧
    (∃ r, createClustersModel (.parsed ⟨[⟨"p", [], "h"⟩], "m", "t"⟩) none [0]
        (fun _ => "x") = .ok r ∧
      r.k = specClusterKFloor (⟨[⟨"p", [], "h"⟩], "m", "t"⟩ :
        EmbeddingsDataM).embeddings.length) :=
  ⟨rfl, c6_cluster_count_formula _ [0] (fun _ => "x") rfl⟩

/-- C4 (counterexample): `create_clusters` on an unparsable
    `embeddings.json` returns a fatal parse error instead of treating the
    file as an empty/default value. -/
theorem c4_counterexample :
    createClustersModel (.corrupt "not json") none [] (fun _ => "") =
      .error "Failed to parse embeddings: not json" := rfl

/-- C4 (amended): the error-log appender and the local generator's
    embeddings-cache read treat unparsable JSON exactly like a missing
    file (empty/default value); but `create_clusters` and
    `get_embedding_progress` abort with a parse error on unparsable JSON;
    and a missing primary index aborts local generation. -/
theorem c4_corruption_handling :
    (∀ raw e, logErrorModel (.corrupt raw) e = logErrorModel .missing e) ∧
    (∀ ifr rf mf raw,
      generateEmbeddingsLocalModel ifr (.corrupt raw) rf mf =
        generateEmbeddingsLocalModel ifr .missing rf mf) ∧
    (∀ raw nc init lbl,
      createClustersModel (.corrupt raw) nc init lbl =
        .error ("Failed to parse embeddings: " ++ raw)) ∧
    (∀ raw, getEmbeddingProgressModel (.corrupt raw) =
        .error ("Failed to parse progress file: " ++ raw)) ∧
    (∀ cfr rf mf, generateEmbeddingsLocalModel .missing cfr rf mf =
        .error "Index file not found") :=
  ⟨fun _ _ => rfl,
   fun ifr _ _ _ => by cases ifr <;> rfl,
   fun _ _ _ _ => rfl,
   fun _ => rfl,
   fun _ _ _ => rfl⟩

/-- C7 (counterexample): a file whose content is blank after trimming is
    counted in the skipped count but no error-log entry is recorded
    (lines 642-645 increment `skipped_count` and `continue` without
    calling `log_error`). -/
theorem c7_counterexample :
    (azureFileReadPhase "t" "p" (.content [' '])).skippedDelta = 1 ∧
    (azureFileReadPhase "t" "p" (.content [' '])).logged = [] := by decide

/-- C7 (amended): an unreadable file is counted in the skipped count and
    recorded with a `read_file` entry in the error log; a file blank after
    trimming is counted in the skipped count but not logged; in both cases
    no request is sent and the job continues with the next file. -/
theorem c7_skip_handling (now path msg : String) (cs : List Char)
    (hblank : (rustTrim cs).isEmpty = true) :
    azureFileReadPhase now path (.unreadable msg) =
      ⟨1, [⟨now, "read_file", some path, msg, none⟩], false⟩ ∧
    azureFileReadPhase now path (.content cs) = ⟨1, [], false⟩ :=
  ⟨rfl, by simp [azureFileReadPhase, hblank]⟩

/-- Witness for `c7_skip_handling` on a single-space file. -/
theorem c7_skip_handling_witness :
    (rustTrim [' ']).isEmpty = true ∧
    (azureFileReadPhase "t" "p" (.unreadable "m") =
      ⟨1, [⟨"t", "read_file", some "p", "m", none⟩], false⟩ ∧
    azureFileReadPhase "t" "p" (.content [' ']) = ⟨1, [], false⟩) :=
  ⟨by decide, c7_skip_handling "t" "p" "m" [' '] (by decide)⟩

/-- C10: the local generation entry point always reports an error count of
    zero: the `error_count` binding of line 459 is immutable and the loop
    only ever increments `generated`, `cached` or `skipped`. -/
theorem c10_local_error_count_zero (ifr : FileRead IndexDataM)
    (cfr : FileRead EmbeddingsDataM) (rf : String → Option (List Nat))
    (mf : Option Nat) (r : LocalGenResult)
    (h : generateEmbeddingsLocalModel ifr cfr rf mf = .ok r) :
    r.errors = 0 := by
  cases ifr with
  | missing => simp [generateEmbeddingsLocalModel] at h
  | corrupt raw => simp [generateEmbeddingsLocalModel] at h
  | parsed idx =>
    simp only [generateEmbeddingsLocalModel, Except.ok.injEq] at h
    have step_errors : ∀ rf' cl (acc : LocalGenResult) e,
        (localGenStep rf' cl acc e).errors = acc.errors := by
      intro rf' cl acc e
      rcases hcl : cl e.path with _ | fe <;> rcases hrf : rf' e.path with _ | c
        <;> simp only [localGenStep, hcl, hrf]
        <;> first
          | rfl
          | (split <;> rfl)
    have fold_errors : ∀ (l : List FileEntryM) (acc : LocalGenResult),
        (l.foldl (localGenStep rf
          (fun p => (match cfr with
            | .parsed d => d.embeddings
            | .missing => []
            | .corrupt _ => []).reverse.find? (fun fe => fe.path == p)))
          acc).errors = acc.errors := by
      intro l
      induction l with
      | nil => intro acc; rfl
      | cons a l ih =>
        intro acc
        rw [List.foldl_cons, ih, step_errors]
    rw [← h]
    exact fold_errors _ _

/-- Witness for `c10_local_error_count_zero` on an empty index. -/
theorem c10_local_error_count_zero_witness :
    generateEmbeddingsLocalModel (.parsed ⟨[]⟩) .missing (fun _ => none)
      none = .ok ⟨0, 0, 0, 0, []⟩ ∧
    (⟨0, 0, 0, 0, []⟩ : LocalGenResult).errors = 0 :=
  ⟨rfl, c10_local_error_count_zero (.parsed ⟨[]⟩) .missing (fun _ => none)
    none ⟨0, 0, 0, 0, []⟩ rfl⟩

/-! ## Theorem: claim C5 (error-log capping). -/

/-- The entries after one `log_error` append, as a function of the previous
    entries. -/
theorem errorLogAppend_entries (log : ErrorLogM) (e : ErrorLogEntryM) :
    (errorLogAppend log e).entries =
      if (log.entries ++ [e]).length > 1000 then
        (log.entries ++ [e]).drop ((log.entries ++ [e]).length - 1000)
      else log.entries ++ [e] := rfl

/-- Entries after folding a sequence of `log_error` appends over the empty
    log: always the most recent 1000 of the appended sequence, in order. -/
theorem errorLogAppend_foldl_entries (es : List ErrorLogEntryM) :
    (es.foldl errorLogAppend ⟨[], ""⟩).entries = es.drop (es.length - 1000) := by
  induction es using List.reverseRecOn with
  | nil => rfl
  | append_singleton es e ih =>
    rw [List.foldl_append]
    simp only [List.foldl_cons, List.foldl_nil]
    rw [errorLogAppend_entries, ih]
    by_cases hc : es.length < 1000
    · have hd0 : es.length - 1000 = 0 := by omega
      rw [hd0, List.drop_zero]
      rw [if_neg (by simp only [List.length_append, List.length_cons,
        List.length_nil]; omega)]
      have hd1 : (es ++ [e]).length - 1000 = 0 := by
        simp only [List.length_append, List.length_cons, List.length_nil]
        omega
      rw [hd1, List.drop_zero]
    · have h1 : (es.drop (es.length - 1000)).length = 1000 := by
        rw [List.length_drop]; omega
      rw [if_pos (by simp only [List.length_append, List.length_cons,
        List.length_nil, h1]; omega)]
      have h2 : (es.drop (es.length - 1000) ++ [e]).length - 1000 = 1 := by
        simp only [List.length_append, List.length_cons, List.length_nil, h1]
      rw [h2, List.drop_append_of_le_length (by omega), List.drop_drop]
      have h3 : (es ++ [e]).length - 1000 = (es.length - 1000) + 1 := by
        simp only [List.length_append, List.length_cons, List.length_nil]
        omega
      rw [h3, List.drop_append_of_le_length (by omega)]

/-- C5: after each append the persisted error log holds at most 1000
    entries; and for a sequence of more than 1000 appends starting from an
    empty (or absent) log, the final log holds exactly the most recent
    1000 entries in their original order (in particular for 1050 appends). -/
theorem c5_error_log_capped (es : List ErrorLogEntryM)
    (h : es.length > 1000) :
    (∀ (log : ErrorLogM) (e : ErrorLogEntryM),
      (errorLogAppend log e).entries.length ≤ 1000) ∧
    (∀ n : Nat,
      ((es.take n).foldl errorLogAppend ⟨[], ""⟩).entries.length ≤ 1000) ∧
    (es.foldl errorLogAppend ⟨[], ""⟩).entries =
      es.drop (es.length - 1000) ∧
    (es.foldl errorLogAppend ⟨[], ""⟩).entries.length = 1000 := by
  refine ⟨?_, ?_, errorLogAppend_foldl_entries es, ?_⟩
  · intro log e
    simp only [errorLogAppend]
    split
    · rw [List.length_drop]
      omega
    · rename_i hsp
      simp only [List.length_append, List.length_cons, List.length_nil] at hsp ⊢
      omega
  · intro n
    rw [errorLogAppend_foldl_entries, List.length_drop]
    omega
  · rw [errorLogAppend_foldl_entries, List.length_drop]
    omega

/-- Witness for `c5_error_log_capped`: 1050 sequential appends. -/
theorem c5_error_log_capped_witness :
    (((List.range 1050).map (fun i =>
      (⟨toString i, "op", none, "m", none⟩ : ErrorLogEntryM))).length > 1000) ∧
    ((∀ (log : ErrorLogM) (e : ErrorLogEntryM),
      (errorLogAppend log e).entries.length ≤ 1000) ∧
    (∀ n : Nat,
      ((((List.range 1050).map (fun i =>
        (⟨toString i, "op", none, "m", none⟩ : ErrorLogEntryM))).take n).foldl
        errorLogAppend ⟨[], ""⟩).entries.length ≤ 1000) ∧
    (((List.range 1050).map (fun i =>
      (⟨toString i, "op", none, "m", none⟩ : ErrorLogEntryM))).foldl
      errorLogAppend ⟨[], ""⟩).entries =
      ((List.range 1050).map (fun i =>
        (⟨toString i, "op", none, "m", none⟩ : ErrorLogEntryM))).drop
        (((List.range 1050).map (fun i =>
          (⟨toString i, "op", none, "m", none⟩ : ErrorLogEntryM))).length -
          1000) ∧
    (((List.range 1050).map (fun i =>
      (⟨toString i, "op", none, "m", none⟩ : ErrorLogEntryM))).foldl
      errorLogAppend ⟨[], ""⟩).entries.length = 1000) :=
  ⟨by simp, c5_error_log_capped _ (by simp)⟩

/-! ## Theorem: claim C8 (truncation totality). -/

/-- Taking a byte prefix walks through a block of one-byte characters one
    byte at a time. -/
theorem utf8TakeBytes_replicate (k : Nat) (rest : List Char) :
    ∀ n, k ≤ n →
      utf8TakeBytes (List.replicate k 'a' ++ rest) n =
        (utf8TakeBytes rest (n - k)).map (fun l => List.replicate k 'a' ++ l) := by
  induction k with
  | zero =>
    intro n _
    simp
  | succ k ih =>
    intro n hk
    cases n with
    | zero => omega
    | succ m =>
      have ha : ('a').utf8Size = 1 := by decide
      rw [List.replicate_succ, List.cons_append]
      show (if ('a').utf8Size ≤ m + 1 then
          (utf8TakeBytes (List.replicate k 'a' ++ rest)
            (m + 1 - ('a').utf8Size)).map (fun l => 'a' :: l)
        else none) = _
      rw [ha, if_pos (by omega)]
      have hm : m + 1 - 1 = m := by omega
      rw [hm, ih m (by omega), Option.map_map]
      have hs : m + 1 - (k + 1) = m - k := by omega
      rw [hs]
      rfl

/-- C8 is violated by the code: on `c8FailingContent` (32002 bytes long,
    hence over the 32000-byte cap) the slice `&content[..32000]` of
    line 648 does not fall on a character boundary, so the truncation step
    panics (`truncateContent` returns `none`) instead of producing a
    string. -/
theorem c8_truncation_panics :
    utf8Len c8FailingContent = 32002 ∧ truncateContent c8FailingContent = none := by
  have ha : ('a').utf8Size = 1 := by decide
  have htail : ((['é', 'a'] : List Char).map Char.utf8Size).sum = 3 := by decide
  have hlen : utf8Len c8FailingContent = 32002 := by
    rw [c8FailingContent, utf8Len, List.map_append, List.sum_append,
      List.map_replicate, ha, List.sum_replicate, htail]
    simp
  refine ⟨hlen, ?_⟩
  rw [truncateContent, if_pos (by omega)]
  rw [c8FailingContent, utf8TakeBytes_replicate 31999 _ 32000 (by omega)]
  have h1 : 32000 - 31999 = 1 := by omega
  rw [h1]
  have h2 : utf8TakeBytes ['é', 'a'] 1 = none := by decide
  rw [h2]
  rfl

/-! ## Theorem: claim C9 (k-means clusters partition the paths). -/

/-- Indices in an enumeration are bounded by the list length. -/
theorem mem_enum_fst_lt {α : Type} {l : List α} {x : Nat × α}
    (h : x ∈ l.enum) : x.1 < l.length := by
  obtain ⟨i, a⟩ := x
  have h' := List.mem_enumFrom (show (i, a) ∈ l.enumFrom 0 from h)
  omega

/-- The nearest-centroid index is a valid centroid index. -/
theorem nearestIdx_lt (v : List Float) (cents : List (List Float))
    (h : cents ≠ []) : nearestIdx v cents < cents.length := by
  unfold nearestIdx
  have key : ∀ (l : List (Nat × List Float)) (acc : Float × Nat),
      acc.2 < cents.length → (∀ x ∈ l, x.1 < cents.length) →
      ((l.foldl
        (fun (acc : Float × Nat) jc =>
          let d := cosineDistance v jc.2
          if d < acc.1 then (d, jc.1) else acc)
        acc).2 < cents.length) := by
    intro l
    induction l with
    | nil => intro acc h1 _; exact h1
    | cons x l ih =>
      intro acc h1 h2
      rw [List.foldl_cons]
      apply ih
      · dsimp only
        split
        · exact h2 x (List.mem_cons_self ..)
        · exact h1
      · intro y hy
        exact h2 y (List.mem_cons_of_mem _ hy)
  apply key
  · cases cents with
    | nil => exact absurd rfl h
    | cons c cs => simp
  · intro x hx
    exact mem_enum_fst_lt hx

/-- `updateCentroids` keeps the number of centroids. -/
theorem updateCentroids_length (embs : List FileEmbedding)
    (assigns : List Nat) (cents : List (List Float)) (dim : Nat) :
    (updateCentroids embs assigns cents dim).length = cents.length := by
  simp [updateCentroids]

/-- One assignment pass assigns every embedding. -/
theorem assignAll_length (embs : List FileEmbedding)
    (cents : List (List Float)) : (assignAll embs cents).length = embs.length := by
  simp [assignAll]

/-- Every assignment produced by a pass is a valid centroid index. -/
theorem assignAll_lt (embs : List FileEmbedding) (cents : List (List Float))
    (h : cents ≠ []) : ∀ a ∈ assignAll embs cents, a < cents.length := by
  intro a ha
  simp only [assignAll, List.mem_map] at ha
  obtain ⟨e, _, rfl⟩ := ha
  exact nearestIdx_lt _ _ h

/-- Invariant of the k-means loop: the number of centroids is preserved,
    every embedding keeps an assignment, and every assignment is a valid
    centroid index. -/
theorem kmeansLoop_inv (embs : List FileEmbedding) (dim : Nat) :
    ∀ (fuel : Nat) (cents : List (List Float)) (assigns : List Nat),
      cents ≠ [] → assigns.length = embs.length →
      (∀ a ∈ assigns, a < cents.length) →
      (kmeansLoop embs dim fuel cents assigns).1.length = cents.length ∧
      (kmeansLoop embs dim fuel cents assigns).2.length = embs.length ∧
      (∀ a ∈ (kmeansLoop embs dim fuel cents assigns).2,
        a < (kmeansLoop embs dim fuel cents assigns).1.length) := by
  intro fuel
  induction fuel with
  | zero =>
    intro cents assigns h1 h2 h3
    exact ⟨rfl, h2, h3⟩
  | succ fuel ih =>
    intro cents assigns h1 h2 h3
    rw [kmeansLoop]
    by_cases hna : assignAll embs cents = assigns
    · simp only [hna, if_pos rfl]
      exact ⟨rfl, h2, h3⟩
    · simp only [if_neg hna]
      have hul : (updateCentroids embs (assignAll embs cents) cents dim).length
          = cents.length := updateCentroids_length ..
      have hune : updateCentroids embs (assignAll embs cents) cents dim ≠ [] := by
        intro hnil
        rw [hnil] at hul
        cases cents with
        | nil => exact absurd rfl h1
        | cons c cs => simp at hul
      have := ih (updateCentroids embs (assignAll embs cents) cents dim)
        (assignAll embs cents) hune (assignAll_length ..)
        (by rw [hul]; exact assignAll_lt embs cents h1)
      exact ⟨by rw [this.1, hul], this.2.1, this.2.2⟩

/-- Flattening fibers of the empty list gives the empty list. -/
theorem flatten_map_nil {α β : Type} (L : List β) :
    ((L.map (fun _ => ([] : List α))).flatten) = [] := by
  induction L with
  | nil => rfl
  | cons b L ih => simp [ih]

/-- Splitting a list into its fibers over the keys `0, ..., C - 1` and
    flattening is a permutation of the list. -/
theorem fibers_flatten_perm {α : Type} (l : List (α × Nat)) (C : Nat)
    (h : ∀ x ∈ l, x.2 < C) :
    (((List.range C).map (fun j => l.filter (fun y => y.2 == j))).flatten).Perm
      l := by
  induction l with
  | nil =>
    simp only [List.filter_nil]
    rw [flatten_map_nil]
  | cons x l ihl =>
    have hx : x.2 ∈ List.range C := List.mem_range.mpr (h x (List.mem_cons_self ..))
    obtain ⟨s, t, hst⟩ := List.append_of_mem hx
    have hnd : (s ++ x.2 :: t).Nodup := hst ▸ List.nodup_range C
    have hxs : x.2 ∉ s := by
      intro hmem
      exact (List.nodup_append.mp hnd).2.2 hmem (List.mem_cons_self ..)
    have hxt : x.2 ∉ t :=
      (List.nodup_cons.mp (List.nodup_append.mp hnd).2.1).1
    have hfl : ∀ j, j ≠ x.2 →
        (x :: l).filter (fun y => y.2 == j) = l.filter (fun y => y.2 == j) := by
      intro j hj
      rw [List.filter_cons,
        if_neg (by simp only [beq_iff_eq]; exact fun hh => hj hh.symm)]
    have hfx : (x :: l).filter (fun y => y.2 == x.2) =
        x :: l.filter (fun y => y.2 == x.2) := by
      rw [List.filter_cons, if_pos (by simp)]
    have hs' : s.map (fun j => (x :: l).filter (fun y => y.2 == j)) =
        s.map (fun j => l.filter (fun y => y.2 == j)) :=
      List.map_congr_left (fun j hj => hfl j (fun he => hxs (he ▸ hj)))
    have ht' : t.map (fun j => (x :: l).filter (fun y => y.2 == j)) =
        t.map (fun j => l.filter (fun y => y.2 == j)) :=
      List.map_congr_left (fun j hj => hfl j (fun he => hxt (he ▸ hj)))
    rw [hst, List.map_append, List.map_cons, List.flatten_append,
      List.flatten_cons, hfx, hs', ht', List.cons_append]
    refine (List.perm_middle).trans (List.Perm.cons x ?_)
    have hre : (s.map (fun j => l.filter (fun y => y.2 == j))).flatten ++
        (l.filter (fun y => y.2 == x.2) ++
          (t.map (fun j => l.filter (fun y => y.2 == j))).flatten) =
        (((s ++ x.2 :: t).map (fun j => l.filter (fun y => y.2 == j))).flatten) := by
      rw [List.map_append, List.map_cons, List.flatten_append, List.flatten_cons]
    rw [hre, ← hst]
    exact ihl (fun y hy => h y (List.mem_cons_of_mem _ hy))

/-- Flattening the emitted member lists over any key list equals flattening
    all fibers over those keys: empty fibers are dropped by the emission but
    contribute nothing to the flattening anyway. -/
theorem buildClusters_flatten_keys (lbl : List String → String)
    (embs : List FileEmbedding) (assigns : List Nat) :
    ∀ (K : List (Nat × List Float)),
      ((K.filterMap (fun jc =>
        let fps := ((embs.zip assigns).filter (fun x => x.2 == jc.1)).map
          (fun x => x.1.path)
        if fps.isEmpty then none
        else some (⟨jc.1, jc.2, fps, some (lbl fps)⟩ : ClusterM))).map
          (fun c => c.file_paths)).flatten =
      ((K.map (fun jc => ((embs.zip assigns).filter (fun x => x.2 == jc.1)).map
        (fun x => x.1.path))).flatten) := by
  intro K
  induction K with
  | nil => rfl
  | cons jc K ih =>
    by_cases hb : (((embs.zip assigns).filter (fun x => x.2 == jc.1)).map
        (fun x => x.1.path)).isEmpty
    · have hnil : ((embs.zip assigns).filter (fun x => x.2 == jc.1)).map
          (fun x => x.1.path) = [] := List.isEmpty_iff.mp hb
      rw [List.filterMap_cons_none (by rw [if_pos hb]), ih, List.map_cons,
        List.flatten_cons, hnil, List.nil_append]
    · rw [List.filterMap_cons_some (by rw [if_neg hb]), List.map_cons,
        List.flatten_cons, ih, List.map_cons, List.flatten_cons]

/-- The members of the emitted clusters are exactly the flattened fibers of
    the final assignment over the centroid indices. -/
theorem buildClusters_flatten (lbl : List String → String)
    (embs : List FileEmbedding) (cents : List (List Float))
    (assigns : List Nat) :
    ((buildClusters lbl embs cents assigns).map (fun c => c.file_paths)).flatten =
      (((List.range cents.length).map (fun j =>
        ((embs.zip assigns).filter (fun x => x.2 == j)).map
          (fun x => x.1.path))).flatten) := by
  rw [buildClusters, buildClusters_flatten_keys lbl embs assigns cents.enum]
  congr 1
  rw [← List.enum_map_fst cents, List.map_map]
  rfl

/-- Under distinct paths, a path found in the flattened member lists lies
    in exactly one cluster of the list. -/
theorem exactlyOne_of_flatten_nodup (cs : List ClusterM) (p : String)
    (hnd : ((cs.map (fun c => c.file_paths)).flatten).Nodup)
    (hex : ∃ c, c ∈ cs ∧ p ∈ c.file_paths) :
    ∃! c, c ∈ cs ∧ p ∈ c.file_paths := by
  obtain ⟨c, hc, hp⟩ := hex
  refine ⟨c, ⟨hc, hp⟩, ?_⟩
  rintro c' ⟨hc', hp'⟩
  by_contra hne
  obtain ⟨s, t, hst⟩ := List.append_of_mem hc
  subst hst
  have hmem' : c' ∈ s ∨ c' ∈ t := by
    rcases List.mem_append.mp hc' with hm | hm
    · exact Or.inl hm
    · rcases List.mem_cons.mp hm with hm | hm
      · exact absurd hm hne
      · exact Or.inr hm
  rw [List.map_append, List.map_cons, List.flatten_append,
    List.flatten_cons] at hnd
  rcases hmem' with hm | hm
  · have h1 : p ∈ (s.map (fun c => c.file_paths)).flatten :=
      List.mem_flatten.mpr ⟨c'.file_paths, List.mem_map_of_mem _ hm, hp'⟩
    have h2 : p ∈ c.file_paths ++ (t.map (fun c => c.file_paths)).flatten :=
      List.mem_append.mpr (Or.inl hp)
    exact (List.nodup_append.mp hnd).2.2 h1 h2
  · have hnd2 := (List.nodup_append.mp hnd).2.1
    have h1 : p ∈ (t.map (fun c => c.file_paths)).flatten :=
      List.mem_flatten.mpr ⟨c'.file_paths, List.mem_map_of_mem _ hm, hp'⟩
    exact (List.nodup_append.mp hnd2).2.2 hp h1

/-- Mapping the path of the first component over a zip recovers the paths
    of the first list when the second list is at least as long. -/
theorem zip_map_fst_path (es : List FileEmbedding) :
    ∀ (as : List Nat), es.length ≤ as.length →
      ((es.zip as).map (fun x => x.1.path)) = es.map (fun e => e.path) := by
  induction es with
  | nil => intro as _; rfl
  | cons e es ih =>
    intro as hlen
    cases as with
    | nil => simp at hlen
    | cons a as =>
      simp only [List.zip_cons_cons, List.map_cons]
      rw [ih as (by simpa using hlen)]

/-- Pulling the path projection out of the flattened fibers. -/
theorem fibers_map_flatten (l : List (FileEmbedding × Nat)) (C : Nat) :
    ((List.range C).map (fun j => (l.filter (fun x => x.2 == j)).map
      (fun x => x.1.path))).flatten =
    (((List.range C).map (fun j => l.filter (fun x => x.2 == j))).flatten).map
      (fun x => x.1.path) := by
  generalize List.range C = K
  induction K with
  | nil => rfl
  | cons j K ih =>
    simp only [List.map_cons, List.flatten_cons, List.map_append, ih]

/-- C9: the clusters emitted by `kmeans_cluster` partition the member
    paths.  With multiplicity: the concatenation of all emitted member
    lists is a permutation of the input record paths.  When the input
    paths are distinct, every record's path lies in exactly one emitted
    cluster.  The hypotheses on `init` state what the sampling loop of
    lines 1030-1040 establishes for the initial centroid indices. -/
theorem c9_kmeans_partition (lbl : List String → String)
    (embs : List FileEmbedding) (k : Nat) (init : List Nat)
    (hk : 1 ≤ k) (hlen : init.length = min k embs.length)
    (hmem : ∀ i ∈ init, i < embs.length) (hinitnd : init.Nodup) :
    (((kmeansCluster lbl embs k init).map (fun c => c.file_paths)).flatten).Perm
      (embs.map (fun e => e.path)) ∧
    ((embs.map (fun e => e.path)).Nodup → ∀ e ∈ embs,
      ∃! c, c ∈ kmeansCluster lbl embs k init ∧ e.path ∈ c.file_paths) := by
  cases hbe : embs.isEmpty with
  | true =>
    have hnil : embs = [] := List.isEmpty_iff.mp hbe
    subst hnil
    constructor
    · simp [kmeansCluster]
    · intro _ e he
      simp at he
  | false =>
    have hk0 : (k == 0) = false := by
      simp only [beq_eq_false_iff_ne, ne_eq]
      omega
    have hKC : kmeansCluster lbl embs k init = buildClusters lbl embs
        (kmeansLoop embs ((embs.headD ⟨"", [], ""⟩).embedding.length) 50
          (init.map (fun i => (embs.getD i ⟨"", [], ""⟩).embedding))
          (List.replicate embs.length 0)).1
        (kmeansLoop embs ((embs.headD ⟨"", [], ""⟩).embedding.length) 50
          (init.map (fun i => (embs.getD i ⟨"", [], ""⟩).embedding))
          (List.replicate embs.length 0)).2 := by
      simp only [kmeansCluster, hbe, hk0, Bool.or_self, Bool.false_eq_true,
        if_false]
    have hepos : 0 < embs.length := by
      cases embs with
      | nil => simp at hbe
      | cons e es => simp
    have hC0len : (init.map (fun i =>
        (embs.getD i ⟨"", [], ""⟩).embedding)).length = init.length :=
      List.length_map ..
    have hC0ne : init.map (fun i => (embs.getD i ⟨"", [], ""⟩).embedding) ≠ [] := by
      intro h0
      rw [h0] at hC0len
      simp only [List.length_nil] at hC0len
      omega
    have hinv := kmeansLoop_inv embs ((embs.headD ⟨"", [], ""⟩).embedding.length)
      50 (init.map (fun i => (embs.getD i ⟨"", [], ""⟩).embedding))
      (List.replicate embs.length 0) hC0ne (List.length_replicate ..)
      (by
        intro a ha
        rw [List.eq_of_mem_replicate ha, hC0len]
        omega)
    rw [hKC]
    have hx2 : ∀ x ∈ embs.zip (kmeansLoop embs
        ((embs.headD ⟨"", [], ""⟩).embedding.length) 50
        (init.map (fun i => (embs.getD i ⟨"", [], ""⟩).embedding))
        (List.replicate embs.length 0)).2, x.2 <
        (kmeansLoop embs ((embs.headD ⟨"", [], ""⟩).embedding.length) 50
          (init.map (fun i => (embs.getD i ⟨"", [], ""⟩).embedding))
          (List.replicate embs.length 0)).1.length := by
      intro x hx
      exact hinv.2.2 x.2 (List.of_mem_zip hx).2
    have hperm : (((buildClusters lbl embs
        (kmeansLoop embs ((embs.headD ⟨"", [], ""⟩).embedding.length) 50
          (init.map (fun i => (embs.getD i ⟨"", [], ""⟩).embedding))
          (List.replicate embs.length 0)).1
        (kmeansLoop embs ((embs.headD ⟨"", [], ""⟩).embedding.length) 50
          (init.map (fun i => (embs.getD i ⟨"", [], ""⟩).embedding))
          (List.replicate embs.length 0)).2).map
        (fun c => c.file_paths)).flatten).Perm (embs.map (fun e => e.path)) := by
      rw [buildClusters_flatten, fibers_map_flatten]
      have hfib := (fibers_flatten_perm _ _ hx2).map (fun x :
        FileEmbedding × Nat => x.1.path)
      refine hfib.trans ?_
      rw [zip_map_fst_path embs _ (by rw [hinv.2.1])]
    refine ⟨hperm, ?_⟩
    intro hpnd e he
    apply exactlyOne_of_flatten_nodup
    · exact (hperm.nodup_iff).mpr hpnd
    · obtain ⟨fps, hfpsmem, hpin⟩ := List.mem_flatten.mp
        (hperm.mem_iff.mpr (List.mem_map_of_mem _ he))
      obtain ⟨c, hc, rfl⟩ := List.mem_map.mp hfpsmem
      exact ⟨c, hc, hpin⟩

/-! ## Theorem: claim C1 (Azure resume: skipping, checkpoint count,
no duplicated path across checkpoints). -/

/-- An entry of an updated checkpoint directory is the written entry or a
    pre-existing one. -/
theorem writeCheckpoint_mem (cps : List (Nat × List FileEmbedding)) (i : Nat)
    (recs : List FileEmbedding) :
    ∀ e ∈ writeCheckpoint cps i recs, e = (i, recs) ∨ e ∈ cps := by
  unfold writeCheckpoint
  split
  · intro e he
    obtain ⟨e', he', rfl⟩ := List.mem_map.mp he
    by_cases hk : e'.1 == i
    · rw [if_pos hk]
      exact Or.inl rfl
    · rw [if_neg hk]
      exact Or.inr he'
  · intro e he
    rcases List.mem_append.mp he with h | h
    · exact Or.inr h
    · rcases List.mem_cons.mp h with h | h
      · exact Or.inl h
      · simp at h

/-- The batch indices present after writing a checkpoint. -/
theorem writeCheckpoint_keys_mem (cps : List (Nat × List FileEmbedding))
    (i : Nat) (recs : List FileEmbedding) (j : Nat) :
    j ∈ (writeCheckpoint cps i recs).map (fun e => e.1) ↔
      (j ∈ cps.map (fun e => e.1) ∨ j = i) := by
  unfold writeCheckpoint
  split
  · rename_i hany
    have hkeys : ((cps.map (fun e => if e.1 == i then (i, recs) else e)).map
        (fun e => e.1)) = cps.map (fun e => e.1) := by
      rw [List.map_map]
      refine List.map_congr_left ?_
      intro e _
      show (if e.1 == i then (i, recs) else e).1 = e.1
      by_cases hk : e.1 == i
      · rw [if_pos hk]
        exact (beq_iff_eq.mp hk).symm
      · rw [if_neg hk]
    rw [hkeys]
    constructor
    · exact Or.inl
    · rintro (h | rfl)
      · exact h
      · obtain ⟨e, he, hei⟩ := List.any_eq_true.mp hany
        exact List.mem_map.mpr ⟨e, he, beq_iff_eq.mp hei⟩
  · rw [List.map_append, List.mem_append]
    simp [Prod.ext_iff]

/-- Writing a checkpoint keeps the batch indices distinct. -/
theorem writeCheckpoint_keys_nodup (cps : List (Nat × List FileEmbedding))
    (i : Nat) (recs : List FileEmbedding)
    (h : (cps.map (fun e => e.1)).Nodup) :
    ((writeCheckpoint cps i recs).map (fun e => e.1)).Nodup := by
  unfold writeCheckpoint
  split
  · rename_i hany
    have hkeys : ((cps.map (fun e => if e.1 == i then (i, recs) else e)).map
        (fun e => e.1)) = cps.map (fun e => e.1) := by
      rw [List.map_map]
      refine List.map_congr_left ?_
      intro e _
      show (if e.1 == i then (i, recs) else e).1 = e.1
      by_cases hk : e.1 == i
      · rw [if_pos hk]
        exact (beq_iff_eq.mp hk).symm
      · rw [if_neg hk]
    rw [hkeys]
    exact h
  · rename_i hany
    rw [List.map_append, List.nodup_append]
    refine ⟨h, by simp, ?_⟩
    intro j hj hj'
    simp only [List.map_cons, List.map_nil, List.mem_singleton] at hj'
    subst hj'
    obtain ⟨e, he, rfl⟩ := List.mem_map.mp hj
    have := List.any_eq_false.mp (Bool.not_eq_true _ |>.mp hany) e he
    simp at this

/-- Every path attempted by the batch loop is outside the resume set. -/
theorem runBatches_attempted (oc : String → AzureOutcome)
    (processed : List String) :
    ∀ (ws : List (Nat × List String)) (cps : List (Nat × List FileEmbedding)),
      ∀ p ∈ (runBatches oc processed ws cps).2, p ∉ processed := by
  intro ws
  induction ws with
  | nil =>
    intro cps p hp
    simp only [runBatches, List.not_mem_nil] at hp
  | cons iw ws ih =>
    intro cps p hp
    obtain ⟨i, w⟩ := iw
    simp only [runBatches] at hp
    split at hp
    · exact ih cps p hp
    · rcases List.mem_append.mp hp with h | h
      · have := (List.mem_filter.mp h).2
        simpa using this
      · exact ih _ p h

/-- Every record written by the batch loop keeps the shape invariant: the
    records of checkpoint `i` carry paths of window `i`. -/
theorem runBatches_paths (oc : String → AzureOutcome) (processed : List String)
    (files : List String) (b : Nat) :
    ∀ (ws : List (Nat × List String)) (cps : List (Nat × List FileEmbedding)),
      (∀ e ∈ cps, ∀ r ∈ e.2, r.path ∈ windowOf files b e.1) →
      (∀ iw ∈ ws, iw.2 = windowOf files b iw.1) →
      ∀ e ∈ (runBatches oc processed ws cps).1, ∀ r ∈ e.2,
        r.path ∈ windowOf files b e.1 := by
  intro ws
  induction ws with
  | nil =>
    intro cps hcps _ e he
    exact hcps e he
  | cons iw ws ih =>
    intro cps hcps hws e he
    obtain ⟨i, w⟩ := iw
    simp only [runBatches] at he
    split at he
    · exact ih cps hcps (fun x hx => hws x (List.mem_cons_of_mem _ hx)) e he
    · refine ih _ ?_ (fun x hx => hws x (List.mem_cons_of_mem _ hx)) e he
      intro e' he' r hr
      rcases writeCheckpoint_mem cps i _ e' he' with h | h
      · subst h
        obtain ⟨q, hq, hfq⟩ := List.mem_filterMap.mp hr
        have hqw : q ∈ w := (List.mem_filter.mp hq).1
        have hpath : r.path = q := by
          cases hoc : oc q with
          | success emb hsh =>
            rw [hoc] at hfq
            cases hfq
            rfl
          | skipped => rw [hoc] at hfq; cases hfq
          | failed => rw [hoc] at hfq; cases hfq
        rw [hpath]
        have hw : w = windowOf files b i := hws (i, w) (List.mem_cons_self ..)
        rw [← hw]
        exact hqw
      · exact hcps e' h r hr

/-- The batch loop keeps the batch indices distinct. -/
theorem runBatches_keys_nodup (oc : String → AzureOutcome)
    (processed : List String) :
    ∀ (ws : List (Nat × List String)) (cps : List (Nat × List FileEmbedding)),
      ((cps.map (fun e => e.1)).Nodup) →
      (((runBatches oc processed ws cps).1.map (fun e => e.1)).Nodup) := by
  intro ws
  induction ws with
  | nil => intro cps h; exact h
  | cons iw ws ih =>
    intro cps h
    obtain ⟨i, w⟩ := iw
    simp only [runBatches]
    split
    · exact ih cps h
    · exact ih _ (writeCheckpoint_keys_nodup cps i _ h)

/-- A batch index is present after the loop iff it was present before or
    its window still contained an unprocessed file. -/
theorem runBatches_keys_mem (oc : String → AzureOutcome)
    (processed : List String) :
    ∀ (ws : List (Nat × List String)) (cps : List (Nat × List FileEmbedding))
      (i : Nat),
      i ∈ (runBatches oc processed ws cps).1.map (fun e => e.1) ↔
        (i ∈ cps.map (fun e => e.1) ∨
          ∃ w, (i, w) ∈ ws ∧
            w.filter (fun p => decide (p ∉ processed)) ≠ []) := by
  intro ws
  induction ws with
  | nil =>
    intro cps i
    simp [runBatches]
  | cons iw ws ih =>
    intro cps i
    obtain ⟨i0, w0⟩ := iw
    simp only [runBatches]
    split
    · rename_i hbf
      rw [ih cps i]
      constructor
      · rintro (h | ⟨w, hw, hfw⟩)
        · exact Or.inl h
        · exact Or.inr ⟨w, List.mem_cons_of_mem _ hw, hfw⟩
      · rintro (h | ⟨w, hw, hfw⟩)
        · exact Or.inl h
        · rcases List.mem_cons.mp hw with hw | hw
          · exfalso
            have hww : w = w0 := congrArg Prod.snd hw
            subst hww
            exact hfw (List.isEmpty_iff.mp hbf)
          · exact Or.inr ⟨w, hw, hfw⟩
    · rename_i hbf
      rw [ih _ i]
      have hkw := writeCheckpoint_keys_mem cps i0
        (List.filterMap (fun p =>
          match oc p with
          | .success emb h => some ⟨p, emb, h⟩
          | .skipped => none
          | .failed => none) (w0.filter (fun p => decide (p ∉ processed)))) i
      rw [hkw]
      have hne : w0.filter (fun p => decide (p ∉ processed)) ≠ [] := by
        intro h0
        rw [h0] at hbf
        simp at hbf
      constructor
      · rintro ((h | rfl) | ⟨w, hw, hfw⟩)
        · exact Or.inl h
        · exact Or.inr ⟨w0, List.mem_cons_self .., hne⟩
        · exact Or.inr ⟨w, List.mem_cons_of_mem _ hw, hfw⟩
      · rintro (h | ⟨w, hw, hfw⟩)
        · exact Or.inl (Or.inl h)
        · rcases List.mem_cons.mp hw with hw | hw
          · exact Or.inl (Or.inr (congrArg Prod.fst hw))
          · exact Or.inr ⟨w, hw, hfw⟩

/-- Every batch window below the batch count is non-empty. -/
theorem windowOf_ne_nil (files : List String) (b i : Nat) (hb : 1 ≤ b)
    (hi : i < numBatches files.length b) : windowOf files b i ≠ [] := by
  have hM : 1 ≤ numBatches files.length b := by omega
  have hlen1 : 1 * b ≤ files.length + b - 1 :=
    (Nat.le_div_iff_mul_le (by omega)).mp hM
  have hnpos : 1 ≤ files.length := by omega
  have hstep : (i + 1) * b ≤ files.length + b - 1 :=
    (Nat.le_div_iff_mul_le (by omega)).mp hi
  have heq : (i + 1) * b = i * b + b := by ring
  have hib : i * b < files.length := by omega
  intro hnil
  rw [windowOf] at hnil
  rcases List.take_eq_nil_iff.mp hnil with h | h
  · omega
  · have := List.drop_eq_nil_iff.mp h
    omega

/-- With distinct file paths, distinct batch windows are disjoint. -/
theorem windowOf_disjoint (files : List String) (b : Nat)
    (hnd : files.Nodup) (i j : Nat) (hij : i < j) :
    ∀ p, p ∈ windowOf files b i → p ∉ windowOf files b j := by
  intro p hpi hpj
  have hwi : windowOf files b i = (files.take (i * b + b)).drop (i * b) := by
    rw [windowOf, List.drop_take]
    congr 1
    omega
  have h1 : p ∈ files.take (i * b + b) := by
    rw [hwi] at hpi
    exact List.mem_of_mem_drop hpi
  have h2 : p ∈ files.drop (j * b) := by
    rw [windowOf] at hpj
    exact List.mem_of_mem_take hpj
  have hle : i * b + b ≤ j * b := by
    have hmul : (i + 1) * b ≤ j * b := Nat.mul_le_mul_right b (by omega)
    have heq : (i + 1) * b = i * b + b := by ring
    omega
  exact (List.disjoint_take_drop hnd hle) h1 h2

/-- Membership in the indexed window list. -/
theorem mem_indexedWindows (files : List String) (b : Nat) (i : Nat)
    (w : List String) :
    (i, w) ∈ indexedWindows files b ↔
      (i < numBatches files.length b ∧ w = windowOf files b i) := by
  simp only [indexedWindows, List.mem_map, List.mem_range, Prod.mk.injEq]
  constructor
  · rintro ⟨j, hj, rfl, rfl⟩
    exact ⟨hj, rfl⟩
  · rintro ⟨hi, rfl⟩
    exact ⟨i, hi, rfl, rfl⟩

/-- The first `n` indexed windows, for `n` within the batch count. -/
theorem indexedWindows_take (files : List String) (b n : Nat)
    (hn : n ≤ numBatches files.length b) :
    (indexedWindows files b).take n =
      (List.range n).map (fun i => (i, windowOf files b i)) := by
  rw [indexedWindows, ← List.map_take, List.take_range, Nat.min_eq_left hn]

/-- C1: resuming an interrupted fresh batched run with identical
    parameters skips all already-checkpointed paths, ends with exactly `M`
    batch checkpoint files, and no path is recorded in two checkpoint
    files.  `oc1` and `oc2` are the per-file outcomes of the two runs (the
    file system and API may answer differently across runs); the file list
    comes from a directory scan, hence the distinct-paths hypothesis. -/
theorem c1_azure_resume (oc1 oc2 : String → AzureOutcome)
    (files : List String) (b n : Nat) (hb : 1 ≤ b)
    (hn : n ≤ numBatches files.length b) (hnd : files.Nodup) :
    AzureResumeOk oc1 oc2 files b n := by
  have hkeys1 : ∀ i : Nat,
      i ∈ (azureRunFirstN oc1 files b n).1.map (fun e => e.1) ↔ i < n := by
    intro i
    rw [azureRunFirstN, runBatches_keys_mem]
    constructor
    · rintro (h | ⟨w, hw, hfw⟩)
      · simp at h
      · rw [indexedWindows_take files b n hn] at hw
        obtain ⟨j, hj, hjw⟩ := List.mem_map.mp hw
        have hji : j = i := congrArg Prod.fst hjw
        subst hji
        exact List.mem_range.mp hj
    · intro hi
      refine Or.inr ⟨windowOf files b i, ?_, ?_⟩
      · rw [indexedWindows_take files b n hn]
        exact List.mem_map.mpr ⟨i, List.mem_range.mpr hi, rfl⟩
      · have hfid : (windowOf files b i).filter
            (fun p => decide (p ∉ ([] : List String))) = windowOf files b i := by
          apply List.filter_eq_self.mpr
          intro a _
          simp
        rw [hfid]
        exact windowOf_ne_nil files b i hb (by omega)
  have hnd1 : ((azureRunFirstN oc1 files b n).1.map (fun e => e.1)).Nodup := by
    rw [azureRunFirstN]
    exact runBatches_keys_nodup _ _ _ [] (by simp)
  have hiwcorrect : ∀ iw ∈ indexedWindows files b,
      iw.2 = windowOf files b iw.1 := by
    rintro ⟨i, w⟩ hiw
    exact ((mem_indexedWindows files b i w).mp hiw).2
  have hpaths1 : ∀ e ∈ (azureRunFirstN oc1 files b n).1, ∀ r ∈ e.2,
      r.path ∈ windowOf files b e.1 := by
    rw [azureRunFirstN]
    refine runBatches_paths oc1 [] files b _ [] ?_ ?_
    · intro e he
      simp at he
    · intro iw hiw
      exact hiwcorrect iw (List.mem_of_mem_take hiw)
  have hproc1 : ∀ p ∈ processedPathsOf (azureRunFirstN oc1 files b n).1 [],
      ∃ i, i < n ∧ p ∈ windowOf files b i := by
    intro p hp
    rw [processedPathsOf] at hp
    simp only [List.map_nil, List.append_nil] at hp
    obtain ⟨e, he, hpe⟩ := List.mem_flatMap.mp hp
    obtain ⟨r, hr, rfl⟩ := List.mem_map.mp hpe
    exact ⟨e.1, (hkeys1 e.1).mp (List.mem_map.mpr ⟨e, he, rfl⟩),
      hpaths1 e he r hr⟩
  refine ⟨?_, ?_, ?_, ?_⟩
  · intro p hp
    rw [azureRun] at hp
    exact runBatches_attempted oc2 _ _ _ p hp
  · rw [azureRun]
    exact runBatches_keys_nodup _ _ _ _ hnd1
  · intro i
    rw [azureRun, runBatches_keys_mem]
    constructor
    · rintro (h | ⟨w, hw, _⟩)
      · have := (hkeys1 i).mp h
        omega
      · exact ((mem_indexedWindows files b i w).mp hw).1
    · intro hi
      by_cases hin : i < n
      · exact Or.inl ((hkeys1 i).mpr hin)
      · refine Or.inr ⟨windowOf files b i,
          (mem_indexedWindows files b i _).mpr ⟨hi, rfl⟩, ?_⟩
        obtain ⟨q, hq⟩ := List.exists_mem_of_ne_nil _
          (windowOf_ne_nil files b i hb hi)
        have hqnp : q ∉ processedPathsOf (azureRunFirstN oc1 files b n).1 [] := by
          intro hqp
          obtain ⟨i', hi', hqw'⟩ := hproc1 q hqp
          exact windowOf_disjoint files b hnd i' i (by omega) q hqw' hq
        exact List.ne_nil_of_mem
          (List.mem_filter.mpr ⟨hq, by simpa using hqnp⟩)
  · have hpaths2 : ∀ e ∈ (azureRun oc2 files b
        (azureRunFirstN oc1 files b n).1 []).1, ∀ r ∈ e.2,
        r.path ∈ windowOf files b e.1 := by
      rw [azureRun]
      exact runBatches_paths oc2 _ files b _ _ hpaths1 hiwcorrect
    intro e1 he1 e2 he2 hne p hp1 hp2
    obtain ⟨r1, hr1, rfl⟩ := List.mem_map.mp hp1
    obtain ⟨r2, hr2, hr2p⟩ := List.mem_map.mp hp2
    have hw1 : r1.path ∈ windowOf files b e1.1 := hpaths2 e1 he1 r1 hr1
    have hw2 : r1.path ∈ windowOf files b e2.1 := by
      rw [← hr2p]
      exact hpaths2 e2 he2 r2 hr2
    rcases Nat.lt_or_ge e1.1 e2.1 with h | h
    · exact windowOf_disjoint files b hnd e1.1 e2.1 h _ hw1 hw2
    · exact windowOf_disjoint files b hnd e2.1 e1.1 (by omega) _ hw2 hw1

/-- Witness for `c9_kmeans_partition` on a concrete two-record set with
    `k = 2` and initial indices `[0, 1]`. -/
theorem c9_kmeans_partition_witness :
    (1 ≤ 2 ∧
      ([0, 1] : List Nat).length =
        min 2 ([(⟨"a", [], "h"⟩ : FileEmbedding), ⟨"b", [], "h"⟩].length) ∧
      (∀ i ∈ ([0, 1] : List Nat),
        i < [(⟨"a", [], "h"⟩ : FileEmbedding), ⟨"b", [], "h"⟩].length) ∧
      ([0, 1] : List Nat).Nodup) ∧
    ((((kmeansCluster (fun _ => "L")
        [(⟨"a", [], "h"⟩ : FileEmbedding), ⟨"b", [], "h"⟩] 2 [0, 1]).map
        (fun c => c.file_paths)).flatten).Perm
      ([(⟨"a", [], "h"⟩ : FileEmbedding), ⟨"b", [], "h"⟩].map
        (fun e => e.path)) ∧
    (([(⟨"a", [], "h"⟩ : FileEmbedding), ⟨"b", [], "h"⟩].map
        (fun e => e.path)).Nodup →
      ∀ e ∈ [(⟨"a", [], "h"⟩ : FileEmbedding), ⟨"b", [], "h"⟩],
        ∃! c, c ∈ kmeansCluster (fun _ => "L")
          [(⟨"a", [], "h"⟩ : FileEmbedding), ⟨"b", [], "h"⟩] 2 [0, 1] ∧
          e.path ∈ c.file_paths)) :=
  ⟨⟨by decide, by decide, by decide, by decide⟩,
   c9_kmeans_partition (fun _ => "L") _ 2 [0, 1] (by decide) (by decide)
     (by decide) (by decide)⟩

/-- Witness for `c1_azure_resume`: three files, batch size 2 (hence two
    batches), terminated after the first batch. -/
theorem c1_azure_resume_witness :
    (1 ≤ 2 ∧ 1 ≤ numBatches (["a", "b", "c"] : List String).length 2 ∧
      (["a", "b", "c"] : List String).Nodup) ∧
    AzureResumeOk (fun _ => .success [] "h1") (fun _ => .success [] "h2")
      ["a", "b", "c"] 2 1 :=
  ⟨⟨by decide, by decide, by decide⟩,
   c1_azure_resume (fun _ => .success [] "h1") (fun _ => .success [] "h2")
     ["a", "b", "c"] 2 1 (by decide) (by decide) (by decide)⟩
